import Mathlib

/-!
Verification development for the catalog-infra integration-test harness.

The Go sources shell out to kubectl/gcloud/yq; the embedding below models the
pure decision logic of each component.  External effects (subprocess execution,
file IO, the Kubernetes watch stream, the gcloud poll results) are made explicit
inputs: a command's captured output becomes a `String` argument, the watch
stream becomes the finite list of events delivered before the stream closes,
and each gcloud poll becomes one element of a list of observed condition lists.
-/

set_option autoImplicit false

namespace CatalogInfra

/-- Whitespace class of the Go regexp escape `\s` (RE2): tab, newline,
vertical-reading form feed, carriage return and space. -/
def isGoSpace (c : Char) : Bool :=
  c == ' ' || c == '\t' || c == '\n' || c == '\x0c' || c == '\r'

/-- Substring test on character lists: `strContainsL sub l` is true when `sub`
occurs contiguously inside `l`. -/
def strContainsL (sub : List Char) : List Char → Bool
  | [] => sub.isEmpty
  | c :: rest => sub.isPrefixOf (c :: rest) || strContainsL sub rest

/-- Substring test on strings. -/
def strContains (s sub : String) : Bool :=
  strContainsL sub.toList s.toList

/-- `TektonRun` from `pkg/k8s/k8s.go` and `pkg/resourcemanager/k8s.go`:
the name and kind of one submitted Tekton execution. -/
structure TektonRun where
  name : String
  kind : String
deriving DecidableEq, Repr

deriving instance DecidableEq for Except

/-- Split a character list at newline characters, the line structure that the
multi-line anchors `^`/`$` of `tektonRunPattern` see. -/
def splitLinesL : List Char → List (List Char)
  | [] => [[]]
  | c :: rest =>
    if c = '\n' then [] :: splitLinesL rest
    else
      match splitLinesL rest with
      | l :: ls => (c :: l) :: ls
      | [] => [[c]]

/-- Tail parser for the run-creation pattern: given the characters of a line
after the `<kind>.tekton.dev/` part, recognise `name` followed by one or more
whitespace characters and the literal `created` at end of line, where `name`
is one or more non-whitespace characters (the `(\S+)\s+created$` tail of
`tektonRunPattern`). -/
def parseNameCreated (rest : List Char) : Option String :=
  if ("created".toList.reverse).isPrefixOf rest.reverse then
    if ((rest.reverse.drop 7).takeWhile isGoSpace).isEmpty then none
    else
      match (rest.reverse.drop 7).dropWhile isGoSpace with
      | [] => none
      | c :: cs =>
        if (c :: cs).any isGoSpace then none
        else some ((c :: cs).reverse.asString)
  else none

/-- One-kind line matcher for
`(?m)^(taskrun|pipelinerun)\.tekton\.dev/(\S+)\s+created$`
(`tektonRunPattern` in `pkg/k8s/k8s.go` and `pkg/resourcemanager/k8s.go`),
read line-orientedly: the line must start with `<kind>.tekton.dev/` and its
remainder must satisfy `parseNameCreated`. -/
def parseRunLineKind (kindStr : String) (line : List Char) : Option TektonRun :=
  if (kindStr.toList ++ ".tekton.dev/".toList).isPrefixOf line then
    match parseNameCreated (line.drop (kindStr.toList ++ ".tekton.dev/".toList).length) with
    | some n => some { name := n, kind := kindStr }
    | none => none
  else none

/-- Full line matcher for `tektonRunPattern`: try the `taskrun` alternative,
then the `pipelinerun` alternative. -/
def parseRunLine (line : List Char) : Option TektonRun :=
  match parseRunLineKind "taskrun" line with
  | some r => some r
  | none => parseRunLineKind "pipelinerun" line

/-- `GetTektonRuns` from `pkg/k8s/k8s.go`: collect every line of the apply
output matching `tektonRunPattern`; zero matches is the error
`no TaskRun or PipelineRun found in the output`. -/
def GetTektonRuns (output : String) : Except String (List TektonRun) :=
  let found := (splitLinesL output.toList).filterMap parseRunLine
  if found.isEmpty then
    Except.error "no TaskRun or PipelineRun found in the output"
  else
    Except.ok found

/-- `GetTektonRun` from `pkg/k8s/k8s.go`: first element of `GetTektonRuns`,
with an extra guard error when the returned list is empty. -/
def GetTektonRun (output : String) : Except String TektonRun :=
  match GetTektonRuns output with
  | Except.error e => Except.error e
  | Except.ok runs =>
    match runs with
    | [] => Except.error "no Tekton TaskRun or PipelineRun found in the output"
    | r :: _ => Except.ok r

/-- `getTektonRun` from `pkg/resourcemanager/k8s.go`: find all matches of
`tektonRunPattern` and return the first, or the error
`no TaskRun or PipelineRun found in the output` when there is none. -/
def getTektonRunRM (output : String) : Except String TektonRun :=
  match (splitLinesL output.toList).filterMap parseRunLine with
  | [] => Except.error "no TaskRun or PipelineRun found in the output"
  | r :: _ => Except.ok r

/-- One entry of the JSON `conditions` list parsed by
`monitorBuildStatusWithGcloud` in `pkg/resourcemanager/k8s.go` (fields
`status`, `type`, `reason`); also used for the condition lists of Tekton runs
(`knative.dev/pkg/apis.Condition`, fields `Type` and `Status`). -/
structure Condition where
  type : String
  status : String
  reason : String
deriving DecidableEq, Repr

/-- The positional search of `monitorBuildStatusWithGcloud`
(`pkg/resourcemanager/k8s.go`): look for `Type == "Succeeded"` at index 0,
then at index 1.  When neither index holds it, the inner `for index == -1`
loop re-reads the same unmarshalled output forever; that case is `none`. -/
def findSucceededCondition (conditions : List Condition) : Option Condition :=
  match conditions with
  | [] => none
  | c0 :: rest =>
    if c0.type == "Succeeded" then some c0
    else
      match rest with
      | c1 :: _ => if c1.type == "Succeeded" then some c1 else none
      | [] => none

/-- Disposition of one poll iteration of `monitorBuildStatusWithGcloud`. -/
inductive PollStep where
  /-- Status `"TRUE"`: log success and return. -/
  | succeeded
  /-- Status `"FALSE"`: log `Build encountered an error: <reason>` and return. -/
  | failed (reason : String)
  /-- Any other status: log `Build is running...`, sleep and poll again. -/
  | keepPolling
deriving DecidableEq, Repr

/-- The `switch buildRun.Conditions[index].Status` of one iteration of
`monitorBuildStatusWithGcloud`; `none` when the positional condition search
never finds a `Succeeded` entry (the inner loop then never terminates). -/
def monitorStep (conditions : List Condition) : Option PollStep :=
  match findSucceededCondition conditions with
  | none => none
  | some cond =>
    if cond.status == "TRUE" then some PollStep.succeeded
    else if cond.status == "FALSE" then some (PollStep.failed cond.reason)
    else some PollStep.keepPolling

/-- Terminal disposition of the managed-path wait. -/
inductive MonitorOutcome where
  /-- Returned after logging `Build completed successfully!`. -/
  | Succeeded
  /-- Returned after logging `Build encountered an error: <reason>`. -/
  | Failed (reason : String)
  /-- The observed poll sequence was exhausted without the loop terminating:
  the code is still inside its unbounded `for` loop. -/
  | StillPolling
  /-- The inner positional search looped forever on one poll result. -/
  | Hang
deriving DecidableEq, Repr

/-- `monitorBuildStatusWithGcloud` from `pkg/resourcemanager/k8s.go`
(`Clients` version): the unbounded poll loop, applied to the finite sequence
of condition lists observed by successive `gcloud builds runs describe`
calls.  The source has no deadline parameter: exhausting the observation list
leaves the loop running (`StillPolling`). -/
def monitorBuildStatusWithGcloud (polls : List (List Condition)) : MonitorOutcome :=
  match polls with
  | [] => MonitorOutcome.StillPolling
  | conditions :: rest =>
    match monitorStep conditions with
    | none => MonitorOutcome.Hang
    | some PollStep.succeeded => MonitorOutcome.Succeeded
    | some (PollStep.failed reason) => MonitorOutcome.Failed reason
    | some PollStep.keepPolling => monitorBuildStatusWithGcloud rest

/-- `meetExpectedCondition` from `pkg/resourcemanager/k8s.go`: some condition
has the expected type and status exactly `"True"`. -/
def meetExpectedCondition (conditions : List Condition) (expectedCondition : String) : Bool :=
  conditions.any fun cond => cond.type == expectedCondition && cond.status == "True"

/-- Snapshot of a TaskRun or PipelineRun carried by one watch event:
its terminal-state flag (`run.IsDone()`) and its condition list. -/
structure RunSnapshot where
  isDone : Bool
  conditions : List Condition
deriving DecidableEq, Repr

/-- One event delivered by the Kubernetes watch stream in
`WaitForTektonRunCompletion`. -/
inductive WatchEvent where
  /-- `watch.Error`: fatal (`watch error`). -/
  | error
  /-- `watch.Modified` carrying the run object. -/
  | modified (run : RunSnapshot)
  /-- `watch.Added` carrying the run object. -/
  | added (run : RunSnapshot)
  /-- Any other event type (`Deleted`, `Bookmark`, or an object of an
  unexpected type): skipped by the loop. -/
  | other
deriving DecidableEq, Repr

/-- Terminal disposition of the direct-path wait (`Wait Outcome`). -/
inductive WaitOutcome where
  /-- Normal return: a delivered run was done and met the expected condition. -/
  | Succeeded
  /-- `t.Fatalf("watch error: ...")` on a `watch.Error` event. -/
  | Failed
  /-- `t.Fatalf("watch timed out after ...")`: the stream closed (its
  server-side timeout elapsed) with no satisfying event. -/
  | TimedOut
deriving DecidableEq, Repr

/-- Whether one watch event is a run object that is done and meets the
expected condition (the return test of the event loop). -/
def eventSatisfies (e : WatchEvent) (expectedCondition : String) : Bool :=
  match e with
  | WatchEvent.modified run => run.isDone && meetExpectedCondition run.conditions expectedCondition
  | WatchEvent.added run => run.isDone && meetExpectedCondition run.conditions expectedCondition
  | _ => false

/-- The event loop of `WaitForTektonRunCompletion`
(`pkg/resourcemanager/k8s.go`, lines 100-118): process the events the watch
delivers before its stream closes; the first `watch.Error` is fatal
(`Failed`), the first done-and-met run returns (`Succeeded`), and a closed
stream without either is the `watch timed out` fatal (`TimedOut`). -/
def WaitForTektonRunCompletion (events : List WatchEvent) (expectedCondition : String) : WaitOutcome :=
  match events with
  | [] => WaitOutcome.TimedOut
  | e :: rest =>
    match e with
    | WatchEvent.error => WaitOutcome.Failed
    | WatchEvent.other => WaitForTektonRunCompletion rest expectedCondition
    | WatchEvent.modified run =>
      if run.isDone && meetExpectedCondition run.conditions expectedCondition then
        WaitOutcome.Succeeded
      else
        WaitForTektonRunCompletion rest expectedCondition
    | WatchEvent.added run =>
      if run.isDone && meetExpectedCondition run.conditions expectedCondition then
        WaitOutcome.Succeeded
      else
        WaitForTektonRunCompletion rest expectedCondition

/-- A single quote character, for transcribing Go format strings. -/
def sq (s : String) : String := "\x27" ++ s ++ "\x27"

/-- The step-action file of a test fixture: its file base name (the `.yaml`
file name without extension, which `AddSuffixToFiles` uses as the reference
key) and the `metadata.name` inside the document. -/
structure StepActionFile where
  baseName : String
  metadataName : String
deriving DecidableEq, Repr

/-- One YAML document of a test file: its `kind`, its `metadata.name`, and
the `ref.name` / `taskRef.name` values occurring anywhere inside it (the
nodes the yq expressions of `pkg/tekton/tekton.go` select). -/
structure TestDoc where
  kind : String
  metadataName : String
  refNames : List String
  taskRefNames : List String
deriving DecidableEq, Repr

/-- A (possibly multi-document) test YAML file. -/
structure TestFile where
  docs : List TestDoc
deriving DecidableEq, Repr

/-- Effect of `UpdateMetadataName` (`yq eval (.metadata.name) += "-<suffix>"`)
on one document. -/
def UpdateMetadataNameDoc (suffix : String) (d : TestDoc) : TestDoc :=
  { d with metadataName := d.metadataName ++ "-" ++ suffix }

/-- Effect of `updateStepActionRefName`
(`(.. | select(has("ref")) | select(.ref.name == "<name>") | .ref.name) += "-<suffix>"`)
on one document: suffix exactly the `ref.name` values equal to the given
step-action name. -/
def updateStepActionRefNameDoc (stepActionName suffix : String) (d : TestDoc) : TestDoc :=
  { d with refNames := d.refNames.map fun r => if r == stepActionName then r ++ "-" ++ suffix else r }

/-- Newline join, as yq prints one result per line. -/
def joinNL : List String → String
  | [] => ""
  | [x] => x
  | x :: rest => x ++ "\n" ++ joinNL rest

/-- `getMetadataName` from `pkg/tekton/tekton.go`: the trimmed output of
`yq eval select(.kind == "Task" or .kind == "Pipeline") | .metadata.name`
over the file, one line per selected document. -/
def getMetadataName (f : TestFile) : String :=
  joinNL ((f.docs.filter fun d => d.kind == "Task" || d.kind == "Pipeline").map fun d => d.metadataName)

/-- Effect of `updateTaskRefName`
(`(.. | select(has("taskRef")) | select(.taskRef.name == "<taskName>") | .taskRef.name) += "-<suffix>"`)
on one document. -/
def updateTaskRefNameDoc (taskName suffix : String) (d : TestDoc) : TestDoc :=
  { d with taskRefNames := d.taskRefNames.map fun r => if r == taskName then r ++ "-" ++ suffix else r }

/-- `UpdateTestFile` from `pkg/tekton/tekton.go`: suffix the `ref.name`
references to the step action, then the `taskRef.name` references to the
task or pipeline declared in the same file, then every document's
`metadata.name`. -/
def UpdateTestFile (f : TestFile) (stepActionName suffix : String) : TestFile :=
  ⟨((f.docs.map (updateStepActionRefNameDoc stepActionName suffix)).map
      (updateTaskRefNameDoc
        (getMetadataName ⟨f.docs.map (updateStepActionRefNameDoc stepActionName suffix)⟩)
        suffix)).map
    (UpdateMetadataNameDoc suffix)⟩

/-- `UpdateMetadataName` applied to the step-action file itself. -/
def UpdateMetadataNameSA (sa : StepActionFile) (suffix : String) : StepActionFile :=
  { sa with metadataName := sa.metadataName ++ "-" ++ suffix }

/-- `AddSuffixToFiles` from `pkg/setup` (src/unnamed/part_001): derive the
step-action name from the FILE base name, suffix the step-action file's
`metadata.name`, then run `UpdateTestFile` on every test file. -/
def AddSuffixToFiles (sa : StepActionFile) (tests : List TestFile) (suffix : String) :
    StepActionFile × List TestFile :=
  let stepActionName := sa.baseName
  (UpdateMetadataNameSA sa suffix, tests.map fun tf => UpdateTestFile tf stepActionName suffix)

/-- ASCII lowering of one character (`strings.ToLower` restricted to the
ASCII kind strings this code compares). -/
def toLowerAsciiChar (c : Char) : Char :=
  if 'A' ≤ c && c ≤ 'Z' then Char.ofNat (c.toNat + 32) else c

/-- ASCII `strings.ToLower`. -/
def toLowerAscii (s : String) : String :=
  (s.toList.map toLowerAsciiChar).asString

/-- Typed value of a step result (`v1.ResultValue`): the union of the string,
array and object carriers. -/
structure ResultValue where
  stringVal : String
  arrayVal : List String
  objectVal : List (String × String)
deriving DecidableEq, Repr

/-- One entry of a step's structured results (`v1.TaskRunStepResult`). -/
structure StepResult where
  name : String
  type : String
  value : ResultValue
deriving DecidableEq, Repr

/-- `v1.StepState`: a step's name and reported results. -/
structure StepState where
  name : String
  results : List StepResult
deriving DecidableEq, Repr

/-- Verdict of the `switch result.Type` in `checkStepResults`. -/
inductive ResultCheck where
  /-- The typed value is non-empty: the check returns (passes). -/
  | pass
  /-- The typed value is empty for its declared type. -/
  | empty
  /-- The result type is not one of string/array/object. -/
  | unsupported
deriving DecidableEq, Repr

/-- The `switch result.Type` of `checkStepResults` (src/unnamed/part_004):
`"string"` is non-empty when `StringVal != ""`, `"array"` when
`len(ArrayVal) > 0`, `"object"` when the map is non-nil and non-empty; any
other type is unsupported. -/
def resultCheck (r : StepResult) : ResultCheck :=
  if r.type == "string" then
    (if r.value.stringVal == "" then ResultCheck.empty else ResultCheck.pass)
  else if r.type == "array" then
    (if r.value.arrayVal.length > 0 then ResultCheck.pass else ResultCheck.empty)
  else if r.type == "object" then
    (if r.value.objectVal.length > 0 then ResultCheck.pass else ResultCheck.empty)
  else ResultCheck.unsupported

/-- Message `Step result <r> in step <s> is empty`. -/
def emptyMsg (resultName stepName : String) : String :=
  "Step result " ++ sq resultName ++ " in step " ++ sq stepName ++ " is empty"

/-- Message `unsupported result type for <r>`. -/
def unsupportedResMsg (resultName : String) : String :=
  "unsupported result type for " ++ sq resultName

/-- Message `Step result <r> not found in Step <s>`. -/
def notFoundMsg (resultName stepName : String) : String :=
  "Step result " ++ sq resultName ++ " not found in Step " ++ sq stepName

/-- Message `PipelineRun not supported for verifying step-level results`. -/
def pipelineUnsupportedMsg : String :=
  "PipelineRun not supported for verifying step-level results"

/-- Message `unsupported Tekton Run kind: <kind>`. -/
def kindUnsupportedMsg (kind : String) : String :=
  "unsupported Tekton Run kind: " ++ kind

/-- Inner loop of `checkStepResults` over one matched step's results:
returns the `t.Errorf` messages emitted and whether a `return` was reached
(a non-empty matching result).  A matching empty result emits the `is empty`
message and continues; an unsupported type emits the `unsupported` message
and then falls through to the `is empty` message. -/
def checkResultsLoop (resultName stepName : String) : List StepResult → List String × Bool
  | [] => ([], false)
  | r :: rest =>
    if r.name != resultName then checkResultsLoop resultName stepName rest
    else
      match resultCheck r with
      | ResultCheck.pass => ([], true)
      | ResultCheck.empty =>
        let p := checkResultsLoop resultName stepName rest
        (emptyMsg resultName stepName :: p.1, p.2)
      | ResultCheck.unsupported =>
        let p := checkResultsLoop resultName stepName rest
        (unsupportedResMsg resultName :: emptyMsg resultName stepName :: p.1, p.2)

/-- `checkStepResults` from src/unnamed/part_004: scan the steps, skipping
steps whose name differs; inside a matching step scan its results; when no
`return` was reached after all steps, emit the `not found` message. -/
def checkStepResults (steps : List StepState) (stepName resultName : String) : List String :=
  match steps with
  | [] => [notFoundMsg resultName stepName]
  | s :: rest =>
    if s.name != stepName then checkStepResults rest stepName resultName
    else
      let p := checkResultsLoop resultName s.name s.results
      if p.2 then p.1 else p.1 ++ checkStepResults rest stepName resultName

/-- `AssertStepResultNotEmpty` from src/unnamed/part_004: in V2 (managed)
mode the check is skipped wholesale; otherwise a `taskrun` kind fetches the
run's steps and checks them, a `pipelinerun` kind emits the unsupported
error, and any other kind emits the unsupported-kind error — in the latter
two cases `checkStepResults` still runs on the nil step slice.  The returned
list collects every `t.Error*` message; the assertion passes exactly when it
is empty. -/
def AssertStepResultNotEmpty (gcbV2 : Bool) (kind : String) (steps : List StepState)
    (stepName resultName : String) : List String :=
  if gcbV2 then []
  else if toLowerAscii kind == "taskrun" then
    checkStepResults steps stepName resultName
  else if toLowerAscii kind == "pipelinerun" then
    pipelineUnsupportedMsg :: checkStepResults [] stepName resultName
  else
    kindUnsupportedMsg kind :: checkStepResults [] stepName resultName

/-- The results named `resultName` inside steps named `stepName`, in scan
order. -/
def matchingResults (steps : List StepState) (stepName resultName : String) : List StepResult :=
  (steps.filter fun s => s.name == stepName).flatMap fun s =>
    s.results.filter fun r => r.name == resultName

/-- The mismatch message of `AssertFieldEquals`
(`field <query> does not equal <expected>`); it names the query and the
expected literal only. -/
def assertFieldEqualsMsg (yqQueryExpression expected : String) : String :=
  "field " ++ sq yqQueryExpression ++ " does not equal " ++ sq expected

/-- `AssertFieldEquals` from src/unnamed/part_003 (and
`AssertTektonRunFieldEquals` from `pkg/assert/assert.go`, identical logic):
the field extraction (kubectl get + yq, external) is passed in as its
result; an extraction error propagates, a mismatching value produces the
mismatch message. -/
def AssertFieldEquals (extracted : Except String String) (yqQueryExpression expected : String) :
    Except String Unit :=
  match extracted with
  | Except.error e => Except.error e
  | Except.ok field =>
    if field == expected then Except.ok ()
    else Except.error (assertFieldEqualsMsg yqQueryExpression expected)

/-- `UpdateMetadataName` from `pkg/tekton/tekton.go`, error path: the yq
subprocess is started with `cmd.Run()`, which captures no output at all; on
failure the error wraps only the process error text. -/
def UpdateMetadataNameErr (runErr : Option String) : Except String Unit :=
  match runErr with
  | none => Except.ok ()
  | some e => Except.error ("failed to add a suffix to the metadata.name field: " ++ e)

/-- `WaitForTektonRunCompletion` from `pkg/k8s/k8s.go`, error path: the
combined output of `kubectl wait` is captured (`_, err := cmd.CombinedOutput()`)
but the returned error formats only the kind, name, condition and the
process error text — the captured output is dropped. -/
def WaitForTektonRunCompletionK8s (tektonRunKind tektonRunName expectedCondition : String)
    (cmdOk : Bool) (_cmdOutput : String) (errText : String) : Except String Unit :=
  if cmdOk then Except.ok ()
  else
    Except.error ("waiting for " ++ tektonRunKind ++ " " ++ tektonRunName ++
      " to reach condition " ++ expectedCondition ++ ": " ++ errText)

/-- The `bundlePlaceholder` constant of `pkg/resourcemanager/k8s.go`. -/
def bundlePlaceholder : String := "BUNDLE_ID"

/-- Whether `BUNDLE_ID` occurs in a string. -/
def hasBundlePlaceholder (s : String) : Bool :=
  strContainsL bundlePlaceholder.toList s.toList

/-- Name runes of Go's `Expand` template syntax: letters, digits and
underscore (`unicode.IsLetter`/`unicode.IsDigit` modelled on the ASCII
range, which covers every identifier this harness passes — namespace
UUIDs). -/
def isNameRune (c : Char) : Bool :=
  c.isAlpha || c.isDigit || c == '_'

/-- Expansion of one `$name` / `${name}` reference of the replacement
template against a match of `BUNDLE_ID`.  The pattern has no
subexpressions, so the only group that exists is group 0, the whole match:
a reference whose name is the single digit `0` yields `BUNDLE_ID`; every
other reference — a larger group number, a digit run with a leading zero
(`extract` disallows leading zeros), or a symbolic name (the pattern
declares none) — expands to the empty string. -/
def expandRef (name : List Char) : List Char :=
  if name = ['0'] then bundlePlaceholder.toList else []

/-- Scanner state of the `Expand` template walk: copying plain text, just
after a `$`, inside a bare `$name`, just after `${`, or inside a braced
`${name}` (the accumulators hold the name runes read so far, reversed). -/
inductive ExpState where
  | copy
  | dollar
  | name (acc : List Char)
  | brace0
  | bname (acc : List Char)
deriving DecidableEq, Repr

/-- End-of-template behaviour of `Regexp.expand`: a trailing lone `$` or a
malformed `${...` is emitted literally; a trailing bare name is a complete
reference. -/
def expandFlush : ExpState → List Char
  | ExpState.copy => []
  | ExpState.dollar => ['$']
  | ExpState.name acc => expandRef acc.reverse
  | ExpState.brace0 => ['$', '\x7b']
  | ExpState.bname acc => '$' :: '\x7b' :: acc.reverse

/-- One-pass transcription of Go's `Regexp.expand` over the replacement
template: `$$` is a literal `$`; `$name` and `${name}` are group
references (name = one or more letters/digits/underscores, `extract`);
a `$` whose remainder is not a well-formed reference — no name rune next,
`${}`, or a brace never closed — is emitted literally, and the characters
after it are then processed as ordinary template text, exactly as
`expand`'s `continue` re-scans from the character after the `$`. -/
def expandRun : ExpState → List Char → List Char
  | st, [] => expandFlush st
  | ExpState.copy, c :: rest =>
    if c = '$' then expandRun ExpState.dollar rest
    else c :: expandRun ExpState.copy rest
  | ExpState.dollar, c :: rest =>
    if c = '$' then '$' :: expandRun ExpState.copy rest
    else if c = '\x7b' then expandRun ExpState.brace0 rest
    else if isNameRune c then expandRun (ExpState.name [c]) rest
    else '$' :: c :: expandRun ExpState.copy rest
  | ExpState.name acc, c :: rest =>
    if isNameRune c then expandRun (ExpState.name (c :: acc)) rest
    else if c = '$' then expandRef acc.reverse ++ expandRun ExpState.dollar rest
    else expandRef acc.reverse ++ (c :: expandRun ExpState.copy rest)
  | ExpState.brace0, c :: rest =>
    if isNameRune c then expandRun (ExpState.bname [c]) rest
    else if c = '\x7d' then '$' :: '\x7b' :: '\x7d' :: expandRun ExpState.copy rest
    else if c = '$' then '$' :: '\x7b' :: expandRun ExpState.dollar rest
    else '$' :: '\x7b' :: c :: expandRun ExpState.copy rest
  | ExpState.bname acc, c :: rest =>
    if isNameRune c then expandRun (ExpState.bname (c :: acc)) rest
    else if c = '\x7d' then expandRef acc.reverse ++ expandRun ExpState.copy rest
    else if c = '$' then '$' :: '\x7b' :: (acc.reverse ++ expandRun ExpState.dollar rest)
    else '$' :: '\x7b' :: (acc.reverse ++ (c :: expandRun ExpState.copy rest))

/-- The replacement text Go inserts for each match of `BUNDLE_ID`: the id
interpreted as an `Expand` template.  The pattern is a literal, so group 0
is the string `BUNDLE_ID` for every match and the expansion is
match-independent. -/
def expandBundleTemplate (id : String) : List Char :=
  expandRun ExpState.copy id.toList

/-- `regexp.MustCompile("BUNDLE_ID").ReplaceAll`: replace every leftmost
non-overlapping occurrence of the placeholder (spelled out character by
character so the scan is structurally recursive) with the `$`-template
expansion of the id — `ReplaceAll` interprets the replacement as in
`Expand`, not literally. -/
def replaceBundleId (id : String) : List Char → List Char
  | 'B' :: 'U' :: 'N' :: 'D' :: 'L' :: 'E' :: '_' :: 'I' :: 'D' :: rest =>
    expandBundleTemplate id ++ replaceBundleId id rest
  | c :: rest => c :: replaceBundleId id rest
  | [] => []

/-- `substituteBundleId` from `pkg/resourcemanager/k8s.go`: replace every
occurrence of `BUNDLE_ID` in the file content with the id; when the
replacement leaves the content byte-identical (`bytes.Equal`), abort with
`Could not replace BUNDLE_ID, no occurrences were found.`; otherwise write
the new content back. -/
def substituteBundleId (content id : String) : Except String String :=
  let newContent := (replaceBundleId id content.toList).asString
  if newContent == content then
    Except.error ("Could not replace " ++ bundlePlaceholder ++ ", no occurrences were found.")
  else
    Except.ok newContent

/-! ### Theorems -/

/-- The placeholder constant written out as characters. -/
theorem bundle_toList :
    bundlePlaceholder.toList = ['B', 'U', 'N', 'D', 'L', 'E', '_', 'I', 'D'] := by decide

/-- If the first match arm of `replaceBundleId` is excluded, the placeholder is
not a prefix of `c :: rest`. -/
theorem notPrefix_of_excl {c : Char} {rest : List Char}
    (h1 : ∀ (r : List Char), c = 'B' →
      rest = 'U' :: 'N' :: 'D' :: 'L' :: 'E' :: '_' :: 'I' :: 'D' :: r → False) :
    bundlePlaceholder.toList.isPrefixOf (c :: rest) = false := by
  by_contra hb
  have hp : bundlePlaceholder.toList.isPrefixOf (c :: rest) = true := by
    cases hx : bundlePlaceholder.toList.isPrefixOf (c :: rest) with
    | true => rfl
    | false => exact absurd hx hb
  rw [List.isPrefixOf_iff_prefix] at hp
  obtain ⟨t, ht⟩ := hp
  rw [bundle_toList] at ht
  simp only [List.cons_append, List.nil_append, List.cons.injEq] at ht
  exact h1 t ht.1.symm ht.2.symm

/-- Splitting a failed containment test at a cons cell. -/
theorem contains_cons_false {c : Char} {rest : List Char}
    (h : strContainsL bundlePlaceholder.toList (c :: rest) = false) :
    bundlePlaceholder.toList.isPrefixOf (c :: rest) = false ∧
      strContainsL bundlePlaceholder.toList rest = false := by
  simp only [strContainsL, Bool.or_eq_false_iff] at h
  exact h

/-- Without an occurrence of the placeholder, the replacement is the identity. -/
theorem replace_no_occ (id : String) :
    ∀ l, strContainsL bundlePlaceholder.toList l = false → replaceBundleId id l = l := by
  intro l
  induction l using replaceBundleId.induct id with
  | case1 rest ih =>
    intro h
    exfalso
    have := (contains_cons_false h).1
    rw [bundle_toList] at this
    simp [List.isPrefixOf] at this
  | case2 c rest h1 ih =>
    intro h
    rw [replaceBundleId.eq_2 id c rest h1]
    rw [ih (contains_cons_false h).2]
  | case3 =>
    intro _
    rfl

/-- When the id's template expansion is the placeholder itself — as for the
id `BUNDLE_ID`, or for `$0`, which re-yields the whole match — the
replacement is the identity. -/
theorem expand_eq_pat_self (id : String)
    (hexp : expandBundleTemplate id = bundlePlaceholder.toList) :
    ∀ l, replaceBundleId id l = l := by
  intro l
  induction l using replaceBundleId.induct id with
  | case1 rest ih =>
    rw [replaceBundleId.eq_1, ih, hexp, bundle_toList]
    rfl
  | case2 c rest h1 ih =>
    rw [replaceBundleId.eq_2 _ c rest h1, ih]
  | case3 => rfl

/-- With an expanded id at least as long as the placeholder, replacement
does not shorten the text. -/
theorem replace_len_ge (id : String) (hid : 9 ≤ (expandBundleTemplate id).length) :
    ∀ l : List Char, l.length ≤ (replaceBundleId id l).length := by
  intro l
  induction l using replaceBundleId.induct id with
  | case1 rest ih =>
    rw [replaceBundleId.eq_1]
    simp only [List.length_append, List.length_cons]
    omega
  | case2 c rest h1 ih =>
    rw [replaceBundleId.eq_2 id c rest h1]
    simp only [List.length_cons]
    omega
  | case3 => simp [replaceBundleId]

/-- With an expanded id no longer than the placeholder, replacement does not
lengthen the text. -/
theorem replace_len_le (id : String) (hid : (expandBundleTemplate id).length ≤ 9) :
    ∀ l : List Char, (replaceBundleId id l).length ≤ l.length := by
  intro l
  induction l using replaceBundleId.induct id with
  | case1 rest ih =>
    rw [replaceBundleId.eq_1]
    simp only [List.length_append, List.length_cons]
    omega
  | case2 c rest h1 ih =>
    rw [replaceBundleId.eq_2 id c rest h1]
    simp only [List.length_cons]
    omega
  | case3 => simp [replaceBundleId]

/-- When the placeholder occurs and the id's template expansion differs from
it, the replacement changes the text. -/
theorem replace_ne_of_contains (id : String)
    (hne : expandBundleTemplate id ≠ bundlePlaceholder.toList) :
    ∀ l, strContainsL bundlePlaceholder.toList l = true → replaceBundleId id l ≠ l := by
  intro l
  induction l using replaceBundleId.induct id with
  | case1 rest ih =>
    intro _ heq
    rw [replaceBundleId.eq_1] at heq
    rcases Nat.lt_trichotomy (expandBundleTemplate id).length 9 with hlt | heq9 | hgt
    · have hlen := congrArg List.length heq
      simp only [List.length_append, List.length_cons] at hlen
      have := replace_len_le id (by omega) rest
      omega
    · have hsplit : expandBundleTemplate id ++ replaceBundleId id rest =
          bundlePlaceholder.toList ++ rest := by
        rw [heq, bundle_toList]
        rfl
      have hinj := List.append_inj hsplit (by rw [bundle_toList]; simpa using heq9)
      exact hne hinj.1
    · have hlen := congrArg List.length heq
      simp only [List.length_append, List.length_cons] at hlen
      have := replace_len_ge id (by omega) rest
      omega
  | case2 c rest h1 ih =>
    intro hcont heq
    rw [replaceBundleId.eq_2 id c rest h1] at heq
    have hnp := notPrefix_of_excl h1
    have hrest : strContainsL bundlePlaceholder.toList rest = true := by
      simp only [strContainsL, hnp, Bool.false_or] at hcont
      exact hcont
    have hres : replaceBundleId id rest = rest := by
      injection heq
    exact ih hrest hres
  | case3 =>
    intro h _
    simp [strContainsL, bundlePlaceholder] at h

/-- Round trip from a string to its character list and back. -/
theorem asString_toList (s : String) : s.toList.asString = s := by
  cases s
  rfl

/-- C10 (amended): `substituteBundleId` aborts with
`Could not replace BUNDLE_ID, no occurrences were found.` exactly when the
replacement leaves the content unchanged — always when the placeholder does
not occur, but also when the `$`-template expansion of the scope id (Go's
`ReplaceAll` interprets the replacement as in `Expand`) equals the
placeholder itself, e.g. for the id `BUNDLE_ID` or the id `$0`; when the
placeholder occurs and the expanded id differs from `BUNDLE_ID`, the
substitution succeeds and returns the content with every leftmost
non-overlapping occurrence of `BUNDLE_ID` replaced by the expanded id. -/
theorem substituteBundleId_spec (content id : String) :
    (hasBundlePlaceholder content = false →
      substituteBundleId content id =
        Except.error "Could not replace BUNDLE_ID, no occurrences were found.") ∧
    (expandBundleTemplate id = bundlePlaceholder.toList →
      substituteBundleId content id =
        Except.error "Could not replace BUNDLE_ID, no occurrences were found.") ∧
    (hasBundlePlaceholder content = true →
      expandBundleTemplate id ≠ bundlePlaceholder.toList →
      substituteBundleId content id =
        Except.ok ((replaceBundleId id content.toList).asString)) := by
  refine ⟨?_, ?_, ?_⟩
  · intro h
    unfold substituteBundleId
    rw [replace_no_occ id content.toList h, asString_toList]
    rw [if_pos (by simp)]
    rfl
  · intro hexp
    unfold substituteBundleId
    rw [expand_eq_pat_self id hexp content.toList, asString_toList]
    rw [if_pos (by simp)]
    rfl
  · intro hocc hne
    unfold substituteBundleId
    have hneq : (replaceBundleId id content.toList).asString ≠ content := by
      intro heq
      have hl : replaceBundleId id content.toList = content.toList := by
        have := congrArg String.toList heq
        simpa using this
      exact replace_ne_of_contains id hne content.toList hocc hl
    rw [if_neg (by simpa using hneq)]

/-- C10 counterexample: the placeholder occurs in the content, yet the step
aborts — with the id equal to the placeholder itself, and likewise with the
id `$0`, whose `Expand`-template expansion re-yields the whole match
`BUNDLE_ID` — because in both cases the replacement leaves the content
unchanged, refuting the claim that the step fails hard exactly when the
placeholder does not occur and otherwise substitutes the id. -/
theorem substituteBundleId_counterexample :
    hasBundlePlaceholder "BUNDLE_ID" = true ∧
    substituteBundleId "BUNDLE_ID" "BUNDLE_ID" =
      Except.error "Could not replace BUNDLE_ID, no occurrences were found." ∧
    substituteBundleId "BUNDLE_ID" "$0" =
      Except.error "Could not replace BUNDLE_ID, no occurrences were found." := by decide

/-- Witness for C10: the amended theorem applied to concrete contents. -/
theorem substituteBundleId_spec_witness :
    substituteBundleId "ref: BUNDLE_ID" "ns1" = Except.ok "ref: ns1" ∧
    substituteBundleId "ref: none" "ns1" =
      Except.error "Could not replace BUNDLE_ID, no occurrences were found." := by
  constructor
  · have H := (substituteBundleId_spec "ref: BUNDLE_ID" "ns1").2.2 (by decide) (by decide)
    rw [H]
    decide
  · exact (substituteBundleId_spec "ref: none" "ns1").1 (by decide)

/-- C2: one iteration of the managed-path wait, at a poll whose positional
search locates a `Succeeded` condition: status exactly `"TRUE"` ends the wait
in `Succeeded`; status exactly `"FALSE"` ends it in `Failed` carrying the
condition's reason text; any other status continues with the remaining
polls. -/
theorem monitorBuildStatus_step_spec (conditions : List Condition)
    (rest : List (List Condition)) (cond : Condition)
    (h : findSucceededCondition conditions = some cond) :
    (cond.status = "TRUE" →
      monitorBuildStatusWithGcloud (conditions :: rest) = MonitorOutcome.Succeeded) ∧
    (cond.status = "FALSE" →
      monitorBuildStatusWithGcloud (conditions :: rest) = MonitorOutcome.Failed cond.reason) ∧
    (cond.status ≠ "TRUE" → cond.status ≠ "FALSE" →
      monitorBuildStatusWithGcloud (conditions :: rest) = monitorBuildStatusWithGcloud rest) := by
  refine ⟨?_, ?_, ?_⟩
  · intro h1
    simp [monitorBuildStatusWithGcloud, monitorStep, h, h1]
  · intro h1
    simp [monitorBuildStatusWithGcloud, monitorStep, h, h1]
  · intro h1 h2
    simp [monitorBuildStatusWithGcloud, monitorStep, h, h1, h2]

/-- Witness for C2: concrete polls ending in each terminal disposition. -/
theorem monitorBuildStatus_step_spec_witness :
    monitorBuildStatusWithGcloud [[⟨"Succeeded", "TRUE", ""⟩]] = MonitorOutcome.Succeeded ∧
    monitorBuildStatusWithGcloud [[⟨"Succeeded", "FALSE", "step failed"⟩]] =
      MonitorOutcome.Failed "step failed" ∧
    monitorBuildStatusWithGcloud [[⟨"Succeeded", "WORKING", ""⟩], [⟨"Succeeded", "TRUE", ""⟩]] =
      MonitorOutcome.Succeeded := by
  refine ⟨?_, ?_, ?_⟩
  · exact (monitorBuildStatus_step_spec [⟨"Succeeded", "TRUE", ""⟩] []
      ⟨"Succeeded", "TRUE", ""⟩ (by decide)).1 rfl
  · exact (monitorBuildStatus_step_spec [⟨"Succeeded", "FALSE", "step failed"⟩] []
      ⟨"Succeeded", "FALSE", "step failed"⟩ (by decide)).2.1 rfl
  · have hstep := (monitorBuildStatus_step_spec [⟨"Succeeded", "WORKING", ""⟩]
      [[⟨"Succeeded", "TRUE", ""⟩]] ⟨"Succeeded", "WORKING", ""⟩ (by decide)).2.2
      (by decide) (by decide)
    rw [hstep]
    decide

/-- C5: the managed-path poll loop of the source has no deadline parameter
and never leaves its `for` loop while the located condition's status stays
non-terminal: after any finite number `n` of polls all reporting status
`WORKING`, the loop is still polling — no timeout outcome exists. -/
theorem monitorBuildStatus_no_deadline (n : Nat) :
    monitorBuildStatusWithGcloud
      (List.replicate n [⟨"Succeeded", "WORKING", ""⟩]) = MonitorOutcome.StillPolling := by
  induction n with
  | zero => rfl
  | succ n ih =>
    have hstep : monitorStep [⟨"Succeeded", "WORKING", ""⟩] = some PollStep.keepPolling := by
      decide
    rw [List.replicate_succ]
    simp only [monitorBuildStatusWithGcloud, hstep]
    exact ih

/-- C8: the error paths of `UpdateMetadataName` (`pkg/tekton/tekton.go`,
which starts yq with `cmd.Run()` and captures no output at all) and of
`WaitForTektonRunCompletion` (`pkg/k8s/k8s.go`, which captures the combined
output of `kubectl wait` but formats only the process error), evaluated at a
failing command: neither error message carries the command's captured
combined output. -/
theorem commandErrors_drop_output :
    UpdateMetadataNameErr (some "exit status 1") =
      Except.error "failed to add a suffix to the metadata.name field: exit status 1" ∧
    WaitForTektonRunCompletionK8s "taskrun" "run-1" "Succeeded" false
        "error: timed out waiting for the condition on taskruns/run-1" "exit status 1" =
      Except.error "waiting for taskrun run-1 to reach condition Succeeded: exit status 1" ∧
    strContains "waiting for taskrun run-1 to reach condition Succeeded: exit status 1"
      "error: timed out waiting for the condition on taskruns/run-1" = false := by
  decide

/-- C9: `GetTektonRun` is the head of `GetTektonRuns`: whenever the
multi-result extractor succeeds its list is non-empty and the single-result
extractor returns exactly its first element, and the two fail on exactly the
same outputs. -/
theorem getTektonRun_first_of_runs (output : String) :
    (∀ (r : TektonRun) (rest : List TektonRun),
      GetTektonRuns output = Except.ok (r :: rest) → GetTektonRun output = Except.ok r) ∧
    (∀ runs : List TektonRun, GetTektonRuns output = Except.ok runs → runs ≠ []) ∧
    ((∃ e, GetTektonRuns output = Except.error e) ↔ ∃ e, GetTektonRun output = Except.error e) := by
  unfold GetTektonRun GetTektonRuns
  cases hf : (splitLinesL output.toList).filterMap parseRunLine with
  | nil => simp
  | cons r rest => simp

/-- Witness for C9: the refinement applied to a concrete two-run output. -/
theorem getTektonRun_first_of_runs_witness :
    GetTektonRun "taskrun.tekton.dev/a created\npipelinerun.tekton.dev/b created" =
      Except.ok ⟨"a", "taskrun"⟩ := by
  exact (getTektonRun_first_of_runs _).1 ⟨"a", "taskrun"⟩ [⟨"b", "pipelinerun"⟩] (by decide)

/-- A non-error event that does not satisfy the expected condition is skipped
by the wait loop. -/
theorem wait_cons_not_sat {ev : WatchEvent} {rest : List WatchEvent} {c : String}
    (hne : ev ≠ WatchEvent.error) (hsat : eventSatisfies ev c = false) :
    WaitForTektonRunCompletion (ev :: rest) c = WaitForTektonRunCompletion rest c := by
  cases ev with
  | error => exact absurd rfl hne
  | other => rfl
  | modified run =>
    simp only [eventSatisfies] at hsat
    simp only [WaitForTektonRunCompletion]
    rw [if_neg (by simp [hsat])]
  | added run =>
    simp only [eventSatisfies] at hsat
    simp only [WaitForTektonRunCompletion]
    rw [if_neg (by simp [hsat])]

/-- A satisfying event at the head of the stream returns immediately. -/
theorem wait_cons_sat {ev : WatchEvent} {rest : List WatchEvent} {c : String}
    (hsat : eventSatisfies ev c = true) :
    WaitForTektonRunCompletion (ev :: rest) c = WaitOutcome.Succeeded := by
  cases ev with
  | error => simp [eventSatisfies] at hsat
  | other => simp [eventSatisfies] at hsat
  | modified run =>
    simp only [eventSatisfies] at hsat
    simp only [WaitForTektonRunCompletion]
    rw [if_pos (by simp [hsat])]
  | added run =>
    simp only [eventSatisfies] at hsat
    simp only [WaitForTektonRunCompletion]
    rw [if_pos (by simp [hsat])]

/-- Shifting the satisfying-event decomposition across an unsatisfying
non-error head event. -/
theorem exists_decomp_cons {ev : WatchEvent} {rest : List WatchEvent} {c : String}
    (hne : ev ≠ WatchEvent.error) (hsat : eventSatisfies ev c = false) :
    (∃ pre e post, ev :: rest = pre ++ e :: post ∧ eventSatisfies e c = true ∧
      WatchEvent.error ∉ pre) ↔
    (∃ pre e post, rest = pre ++ e :: post ∧ eventSatisfies e c = true ∧
      WatchEvent.error ∉ pre) := by
  constructor
  · rintro ⟨pre, e, post, heq, hs, hpre⟩
    cases pre with
    | nil =>
      simp only [List.nil_append, List.cons.injEq] at heq
      rw [heq.1] at hsat
      rw [hs] at hsat
      cases hsat
    | cons p ps =>
      simp only [List.cons_append, List.cons.injEq] at heq
      refine ⟨ps, e, post, heq.2, hs, fun hmem => hpre (List.mem_cons_of_mem p hmem)⟩
  · rintro ⟨pre, e, post, heq, hs, hpre⟩
    refine ⟨ev :: pre, e, post, by simp [heq], hs, ?_⟩
    intro hmem
    rcases List.mem_cons.mp hmem with h | h
    · exact hne h.symm
    · exact hpre h

/-- C1 (amended): the direct-path wait ends in `Succeeded` exactly when some
delivered event shows the run done with a condition of the expected type and
status exactly `"True"`, with no `watch.Error` event delivered before it; and
when no delivered event satisfies the condition and no error event arrives —
in particular for a run that is done with condition
`{type: "Succeeded", status: "False"}` — the stream closes at its deadline
and the wait ends in `TimedOut`, not `Failed`. -/
theorem waitForTektonRun_spec (events : List WatchEvent) (c : String) :
    (WaitForTektonRunCompletion events c = WaitOutcome.Succeeded ↔
      ∃ pre e post, events = pre ++ e :: post ∧ eventSatisfies e c = true ∧
        WatchEvent.error ∉ pre) ∧
    ((∀ e ∈ events, eventSatisfies e c = false) → WatchEvent.error ∉ events →
      WaitForTektonRunCompletion events c = WaitOutcome.TimedOut) := by
  induction events with
  | nil =>
    constructor
    · constructor
      · intro h
        simp [WaitForTektonRunCompletion] at h
      · rintro ⟨pre, e, post, heq, -, -⟩
        cases pre <;> cases heq
    · intro _ _
      rfl
  | cons ev rest ih =>
    constructor
    · cases hev : ev with
      | error =>
        constructor
        · intro h
          simp [WaitForTektonRunCompletion] at h
        · rintro ⟨pre, e, post, heq, hs, hpre⟩
          exfalso
          cases pre with
          | nil =>
            simp only [List.nil_append, List.cons.injEq] at heq
            rw [← heq.1] at hs
            simp [eventSatisfies] at hs
          | cons p ps =>
            simp only [List.cons_append, List.cons.injEq] at heq
            exact hpre (by rw [heq.1]; exact List.mem_cons_self p ps)
      | modified run =>
        cases hsat : eventSatisfies (WatchEvent.modified run) c with
        | true =>
          rw [wait_cons_sat hsat]
          simp only [true_iff]
          exact ⟨[], WatchEvent.modified run, rest, rfl, hsat, by simp⟩
        | false =>
          rw [wait_cons_not_sat (by simp) hsat,
            exists_decomp_cons (by simp) hsat]
          exact ih.1
      | added run =>
        cases hsat : eventSatisfies (WatchEvent.added run) c with
        | true =>
          rw [wait_cons_sat hsat]
          simp only [true_iff]
          exact ⟨[], WatchEvent.added run, rest, rfl, hsat, by simp⟩
        | false =>
          rw [wait_cons_not_sat (by simp) hsat,
            exists_decomp_cons (by simp) hsat]
          exact ih.1
      | other =>
        rw [wait_cons_not_sat (by simp) (by simp [eventSatisfies]),
          exists_decomp_cons (by simp) (by simp [eventSatisfies])]
        exact ih.1
    · intro hall herr
      have hne : ev ≠ WatchEvent.error := by
        intro h
        exact herr (h ▸ List.mem_cons_self ev rest)
      rw [wait_cons_not_sat hne (hall ev (List.mem_cons_self ev rest))]
      exact ih.2 (fun e he => hall e (List.mem_cons_of_mem ev he))
        (fun hmem => herr (List.mem_cons_of_mem ev hmem))

/-- C1 counterexample: a watch event showing the run done with condition
`{type: "Succeeded", status: "False"}`, followed by the stream closing at
the deadline, ends the wait in `TimedOut` (`watch timed out`), not `Failed`
as the claim states. -/
theorem waitForTektonRun_doneFalse_counterexample :
    WaitForTektonRunCompletion
      [WatchEvent.modified ⟨true, [⟨"Succeeded", "False", ""⟩]⟩] "Succeeded" =
      WaitOutcome.TimedOut ∧
    WaitForTektonRunCompletion
      [WatchEvent.modified ⟨true, [⟨"Succeeded", "False", ""⟩]⟩] "Succeeded" ≠
      WaitOutcome.Failed := by decide

/-- Witness for C1: the amended theorem applied to a concrete satisfying
stream and to a concrete stream with no satisfying event. -/
theorem waitForTektonRun_spec_witness :
    WaitForTektonRunCompletion
      [WatchEvent.other, WatchEvent.modified ⟨true, [⟨"Succeeded", "True", ""⟩]⟩]
      "Succeeded" = WaitOutcome.Succeeded ∧
    WaitForTektonRunCompletion [WatchEvent.other] "Succeeded" = WaitOutcome.TimedOut := by
  constructor
  · exact (waitForTektonRun_spec _ "Succeeded").1.mpr
      ⟨[WatchEvent.other], WatchEvent.modified ⟨true, [⟨"Succeeded", "True", ""⟩]⟩, [],
        rfl, by decide, by decide⟩
  · exact (waitForTektonRun_spec [WatchEvent.other] "Succeeded").2 (by decide) (by decide)

/-- A prefix occurrence is an occurrence. -/
theorem strContainsL_of_isPrefixOf {sub l : List Char} (h : sub.isPrefixOf l = true) :
    strContainsL sub l = true := by
  cases l with
  | nil =>
    cases sub with
    | nil => rfl
    | cons c cs => simp [List.isPrefixOf] at h
  | cons c rest => simp [strContainsL, h]

/-- A middle segment is an occurrence. -/
theorem strContainsL_append_mid (b a c : List Char) :
    strContainsL b (a ++ (b ++ c)) = true := by
  induction a with
  | nil =>
    simp only [List.nil_append]
    exact strContainsL_of_isPrefixOf (List.isPrefixOf_iff_prefix.mpr (List.prefix_append b c))
  | cons x xs ih =>
    simp only [List.cons_append, strContainsL, List.append_eq, ih, Bool.or_true]

/-- C7 (amended): the field-equals assertion succeeds exactly when the
extracted value equals the expected literal; on mismatch it fails with the
message `field <query> does not equal <expected>`, which names the query
expression and the expected literal but not the actual extracted value. -/
theorem assertFieldEquals_spec (q expected field : String) :
    (AssertFieldEquals (Except.ok field) q expected = Except.ok () ↔ field = expected) ∧
    (field ≠ expected →
      AssertFieldEquals (Except.ok field) q expected =
        Except.error (assertFieldEqualsMsg q expected) ∧
      strContains (assertFieldEqualsMsg q expected) q = true ∧
      strContains (assertFieldEqualsMsg q expected) expected = true) := by
  constructor
  · by_cases hfe : field = expected <;> simp [AssertFieldEquals, hfe]
  · intro hne
    refine ⟨by simp [AssertFieldEquals, hne], ?_, ?_⟩
    · have H := strContainsL_append_mid q.toList ("field ".toList ++ "\x27".toList)
        ("\x27 does not equal \x27".toList ++ (expected.toList ++ "\x27".toList))
      unfold strContains
      have hdecomp : (assertFieldEqualsMsg q expected).toList =
          ("field ".toList ++ "\x27".toList) ++
            (q.toList ++ ("\x27 does not equal \x27".toList ++
              (expected.toList ++ "\x27".toList))) := by
        simp [assertFieldEqualsMsg, sq, String.toList, String.data_append]
      rw [hdecomp]
      exact H
    · have H := strContainsL_append_mid expected.toList
        ("field ".toList ++ "\x27".toList ++ q.toList ++ "\x27 does not equal \x27".toList)
        ("\x27".toList)
      unfold strContains
      have hdecomp : (assertFieldEqualsMsg q expected).toList =
          ("field ".toList ++ "\x27".toList ++ q.toList ++
            "\x27 does not equal \x27".toList) ++
            (expected.toList ++ "\x27".toList) := by
        simp [assertFieldEqualsMsg, sq, String.toList, String.data_append]
      rw [hdecomp]
      exact H

/-- C7 counterexample: for YAML field value `Running`, query `.status.phase`
and expected `Done`, the failure message names the query and the expected
literal but does not contain the actual extracted value `Running` — refuting
the claim that the message names both values. -/
theorem assertFieldEquals_counterexample :
    AssertFieldEquals (Except.ok "Running") ".status.phase" "Done" =
      Except.error (assertFieldEqualsMsg ".status.phase" "Done") ∧
    strContains (assertFieldEqualsMsg ".status.phase" "Done") "Running" = false := by
  decide

/-- Witness for C7: the amended theorem applied at the fixture of the spec
(`status: {phase: Running}` with query `.status.phase`). -/
theorem assertFieldEquals_spec_witness :
    AssertFieldEquals (Except.ok "Running") ".status.phase" "Running" = Except.ok () ∧
    AssertFieldEquals (Except.ok "Running") ".status.phase" "Done" =
      Except.error (assertFieldEqualsMsg ".status.phase" "Done") ∧
    strContains (assertFieldEqualsMsg ".status.phase" "Done") ".status.phase" = true := by
  refine ⟨?_, ?_, ?_⟩
  · exact (assertFieldEquals_spec ".status.phase" "Running" "Running").1.mpr rfl
  · exact ((assertFieldEquals_spec ".status.phase" "Done" "Running").2 (by decide)).1
  · exact ((assertFieldEquals_spec ".status.phase" "Done" "Running").2 (by decide)).2.1

/-- When exactly one element of a list maps to `some`, and a given member
maps to `some y`, the whole `filterMap` is `[y]`. -/
theorem filterMap_singleton_of_countP_one {α β : Type} (f : α → Option β) :
    ∀ (l : List α) (x : α) (y : β),
    l.countP (fun a => (f a).isSome) = 1 → x ∈ l → f x = some y →
    l.filterMap f = [y] := by
  intro l
  induction l with
  | nil =>
    intro x y _ hmem _
    cases hmem
  | cons a rest ih =>
    intro x y hc hmem hfx
    rw [List.countP_cons] at hc
    cases hfa : f a with
    | some v =>
      have hc0 : rest.countP (fun a => (f a).isSome) = 0 := by
        rw [hfa] at hc
        simpa using hc
      have hnone : ∀ b ∈ rest, f b = none := by
        intro b hb
        have hall := List.countP_eq_zero.mp hc0 b hb
        cases hfb : f b with
        | none => rfl
        | some w =>
          rw [hfb] at hall
          simp at hall
      rw [List.filterMap_cons_some hfa, List.filterMap_eq_nil_iff.mpr hnone]
      rcases List.mem_cons.mp hmem with hxa | hxr
      · subst hxa
        rw [hfa] at hfx
        injection hfx with hvy
        rw [hvy]
      · exact absurd (hnone x hxr) (by simp [hfx])
    | none =>
      have hc1 : rest.countP (fun a => (f a).isSome) = 1 := by
        rw [hfa] at hc
        simpa using hc
      have hx : x ∈ rest := by
        rcases List.mem_cons.mp hmem with hxa | hxr
        · subst hxa
          rw [hfa] at hfx
          cases hfx
        · exact hxr
      rw [List.filterMap_cons_none hfa]
      exact ih x y hc1 hx hfx

/-- A non-empty character list reversed and packed is not the empty string. -/
theorem asString_ne_empty {l : List Char} (h : l ≠ []) : l.asString ≠ "" := by
  intro he
  apply h
  have := congrArg String.toList he
  simpa using this

/-- The name captured by `parseNameCreated` is non-empty. -/
theorem parseNameCreated_some_ne {rest : List Char} {n : String}
    (h : parseNameCreated rest = some n) : n ≠ "" := by
  unfold parseNameCreated at h
  split at h
  · split at h
    · cases h
    · split at h
      · cases h
      · next c cs _ =>
        split at h
        · cases h
        · injection h with hn
          subst hn
          apply asString_ne_empty
          simp
  · cases h

/-- A successful one-kind line match carries the asked-for kind and a
non-empty name. -/
theorem parseRunLineKind_some {k : String} {line : List Char} {r : TektonRun}
    (h : parseRunLineKind k line = some r) : r.kind = k ∧ r.name ≠ "" := by
  unfold parseRunLineKind at h
  split at h
  · split at h
    · next n heq =>
      injection h with hr
      subst hr
      exact ⟨rfl, parseNameCreated_some_ne heq⟩
    · cases h
  · cases h

/-- A successful line match carries a run kind and a non-empty name. -/
theorem parseRunLine_some {line : List Char} {r : TektonRun}
    (h : parseRunLine line = some r) :
    r.name ≠ "" ∧ (r.kind = "taskrun" ∨ r.kind = "pipelinerun") := by
  unfold parseRunLine at h
  cases htk : parseRunLineKind "taskrun" line with
  | some r1 =>
    rw [htk] at h
    injection h with hr
    subst hr
    have := parseRunLineKind_some htk
    exact ⟨this.2, Or.inl this.1⟩
  | none =>
    rw [htk] at h
    have := parseRunLineKind_some h
    exact ⟨this.2, Or.inr this.1⟩

/-- C3: when exactly one line of the apply output matches the
created-resource pattern, both extractors return the run whose kind and name
are the two captured groups of that line; when no line matches, both fail
with the `no TaskRun or PipelineRun found in the output` error; and a
successful extraction never carries a zero-valued identifier — the name is
non-empty and the kind is one of the two pattern alternatives. -/
theorem getTektonRun_extractor_spec (output : String) :
    ((splitLinesL output.toList).countP (fun l => (parseRunLine l).isSome) = 1 →
      ∀ (line : List Char) (r : TektonRun),
      line ∈ splitLinesL output.toList → parseRunLine line = some r →
      GetTektonRun output = Except.ok r ∧ getTektonRunRM output = Except.ok r) ∧
    ((∀ line ∈ splitLinesL output.toList, parseRunLine line = none) →
      GetTektonRun output = Except.error "no TaskRun or PipelineRun found in the output" ∧
      getTektonRunRM output = Except.error "no TaskRun or PipelineRun found in the output") ∧
    (∀ r : TektonRun, GetTektonRun output = Except.ok r →
      r.name ≠ "" ∧ (r.kind = "taskrun" ∨ r.kind = "pipelinerun")) := by
  refine ⟨?_, ?_, ?_⟩
  · intro hc line r hmem hline
    have hfm := filterMap_singleton_of_countP_one parseRunLine _ line r hc hmem hline
    constructor
    · unfold GetTektonRun GetTektonRuns
      rw [hfm]
      rfl
    · unfold getTektonRunRM
      rw [hfm]
  · intro hall
    have hfm : (splitLinesL output.toList).filterMap parseRunLine = [] :=
      List.filterMap_eq_nil_iff.mpr hall
    constructor
    · unfold GetTektonRun GetTektonRuns
      rw [hfm]
      rfl
    · unfold getTektonRunRM
      rw [hfm]
  · intro r hok
    unfold GetTektonRun GetTektonRuns at hok
    cases hfm : (splitLinesL output.toList).filterMap parseRunLine with
    | nil =>
      rw [hfm] at hok
      simp at hok
    | cons r0 rest =>
      rw [hfm] at hok
      have hr : r0 = r := by simpa using hok
      subst hr
      have hr0 : r0 ∈ (splitLinesL output.toList).filterMap parseRunLine := by
        rw [hfm]
        exact List.mem_cons_self _ _
      obtain ⟨line, hline, hsome⟩ := List.mem_filterMap.mp hr0
      exact parseRunLine_some hsome

/-- Witness for C3: the extractor applied to a concrete single-match output
and to a concrete matchless output. -/
theorem getTektonRun_extractor_spec_witness :
    GetTektonRun "taskrun.tekton.dev/run-a created" = Except.ok ⟨"run-a", "taskrun"⟩ ∧
    getTektonRunRM "no runs here" =
      Except.error "no TaskRun or PipelineRun found in the output" := by
  constructor
  · exact ((getTektonRun_extractor_spec "taskrun.tekton.dev/run-a created").1 (by decide)
      ("taskrun.tekton.dev/run-a created".toList) ⟨"run-a", "taskrun"⟩
      (by decide) (by decide)).1
  · exact ((getTektonRun_extractor_spec "no runs here").2.1 (by decide)).2

/-- Appending a dashed suffix changes a string. -/
theorem append_dash_ne (x suf : String) : x ++ "-" ++ suf ≠ x := by
  intro h
  have hlen := congrArg String.length h
  have hdash : ("-" : String).length = 1 := rfl
  simp only [String.length_append, hdash] at hlen
  omega

/-- The `ref.name` update touches neither `kind` nor `metadata.name`, so the
task-name lookup reads the same value before and after it. -/
theorem getMetadataName_refUpdate (tf : TestFile) (san suf : String) :
    getMetadataName ⟨tf.docs.map (updateStepActionRefNameDoc san suf)⟩ = getMetadataName tf := by
  unfold getMetadataName
  rw [List.filter_map, List.map_map]
  rfl

/-- C4 (amended): provided the StepAction file's base name equals its
document's `metadata.name` (the update keys references off the file name),
`AddSuffixToFiles` renames the StepAction's `metadata.name` to `name-suffix`
and, in every test file, rewrites exactly the `ref.name` entries equal to
that name to the identical `name-suffix` (leaving no reference to the old
name), suffixes every document's `metadata.name`, and rewrites exactly the
`taskRef.name` entries equal to the file's own Task/Pipeline name, keeping
them consistent with that document's suffixed name. -/
theorem addSuffixToFiles_consistent (sa : StepActionFile) (tests : List TestFile)
    (suf : String) (h : sa.baseName = sa.metadataName) :
    (AddSuffixToFiles sa tests suf).1.metadataName = sa.metadataName ++ "-" ++ suf ∧
    (∀ tf' ∈ (AddSuffixToFiles sa tests suf).2, ∃ tf ∈ tests,
      ∀ d' ∈ tf'.docs, ∃ d ∈ tf.docs,
        d'.metadataName = d.metadataName ++ "-" ++ suf ∧
        d'.refNames = d.refNames.map
          (fun r => if r == sa.metadataName then r ++ "-" ++ suf else r) ∧
        d'.taskRefNames = d.taskRefNames.map
          (fun r => if r == getMetadataName tf then r ++ "-" ++ suf else r)) ∧
    (∀ tf' ∈ (AddSuffixToFiles sa tests suf).2, ∀ d' ∈ tf'.docs,
      ∀ r ∈ d'.refNames, r ≠ sa.metadataName) := by
  refine ⟨rfl, ?_, ?_⟩
  · intro tf' htf'
    simp only [AddSuffixToFiles, List.mem_map] at htf'
    obtain ⟨tf, htf, rfl⟩ := htf'
    refine ⟨tf, htf, ?_⟩
    intro d' hd'
    unfold UpdateTestFile at hd'
    rw [getMetadataName_refUpdate tf sa.baseName suf] at hd'
    simp only [List.map_map, List.mem_map, Function.comp] at hd'
    obtain ⟨d, hd, rfl⟩ := hd'
    refine ⟨d, hd, rfl, ?_, ?_⟩
    · show (updateStepActionRefNameDoc sa.baseName suf d).refNames = _
      rw [h]
      rfl
    · rfl
  · intro tf' htf' d' hd' r hr
    simp only [AddSuffixToFiles, List.mem_map] at htf'
    obtain ⟨tf, htf, rfl⟩ := htf'
    unfold UpdateTestFile at hd'
    simp only [List.map_map, List.mem_map, Function.comp] at hd'
    obtain ⟨d, hd, rfl⟩ := hd'
    have hr2 : r ∈ (updateStepActionRefNameDoc sa.baseName suf d).refNames := hr
    simp only [updateStepActionRefNameDoc, List.mem_map] at hr2
    obtain ⟨r0, hr0, rfl⟩ := hr2
    by_cases hbeq : r0 = sa.baseName
    · rw [if_pos (by simp [hbeq])]
      have hr0m : r0 = sa.metadataName := h ▸ hbeq
      rw [hr0m]
      exact append_dash_ne sa.metadataName suf
    · rw [if_neg (by simp [hbeq])]
      rw [← h]
      exact hbeq

/-- C4 counterexample: a fixture whose StepAction file is named `bar.yaml`
while its document's `metadata.name` is `foo`, with a test file referencing
the StepAction as `ref.name: foo` and a Task referenced by `taskRef.name`:
the transformation renames the StepAction to `foo-s` but leaves the
`ref.name: foo` reference untouched (the update keys off the file base name
`bar`), so a reference is left stale, refuting the claim. -/
theorem addSuffixToFiles_counterexample :
    (AddSuffixToFiles ⟨"bar", "foo"⟩
      [⟨[⟨"Task", "tsk", ["foo"], []⟩, ⟨"TaskRun", "tr", [], ["tsk"]⟩]⟩] "s").1.metadataName
      = "foo-s" ∧
    (AddSuffixToFiles ⟨"bar", "foo"⟩
      [⟨[⟨"Task", "tsk", ["foo"], []⟩, ⟨"TaskRun", "tr", [], ["tsk"]⟩]⟩] "s").2 =
      [⟨[⟨"Task", "tsk-s", ["foo"], []⟩, ⟨"TaskRun", "tr-s", [], ["tsk-s"]⟩]⟩] := by decide

/-- Witness for C4: the amended theorem applied to a well-formed concrete
fixture (file base name equal to the document name). -/
theorem addSuffixToFiles_consistent_witness :
    (AddSuffixToFiles ⟨"foo", "foo"⟩ [⟨[⟨"TaskRun", "tr", ["foo"], []⟩]⟩] "ab").1.metadataName =
      "foo" ++ "-" ++ "ab" ∧
    (∀ tf' ∈ (AddSuffixToFiles ⟨"foo", "foo"⟩ [⟨[⟨"TaskRun", "tr", ["foo"], []⟩]⟩] "ab").2,
      ∀ d' ∈ tf'.docs, ∀ r ∈ d'.refNames, r ≠ "foo") := by
  have H := addSuffixToFiles_consistent ⟨"foo", "foo"⟩
    [⟨[⟨"TaskRun", "tr", ["foo"], []⟩]⟩] "ab" rfl
  exact ⟨H.1, H.2.2⟩

/-- Bool bridge for the `!=` tests of the assertion code. -/
theorem bne_false_of_beq {a b : String} (h : (a == b) = true) : (a != b) = false := by
  simp [bne, h]

/-- Bool bridge for the `!=` tests of the assertion code, negative case. -/
theorem bne_true_of_not_beq {a b : String} (h : ¬(a == b) = true) : (a != b) = true := by
  simp [bne]
  simpa using h

/-- A step with no result of the asked-for name emits nothing and does not
return. -/
theorem checkResultsLoop_no_match (resultName stepName : String) :
    ∀ results : List StepResult,
    results.filter (fun x => x.name == resultName) = [] →
    checkResultsLoop resultName stepName results = ([], false) := by
  intro results
  induction results with
  | nil => intro _; rfl
  | cons a rs ih =>
    intro hf
    rw [List.filter_cons] at hf
    by_cases hname : (a.name == resultName) = true
    · rw [if_pos hname] at hf
      cases hf
    · rw [if_neg hname] at hf
      simp only [checkResultsLoop]
      rw [if_pos (bne_true_of_not_beq hname)]
      exact ih hf

/-- When the first matching result is non-empty, the loop returns with no
message. -/
theorem checkResultsLoop_first_pass (resultName stepName : String) :
    ∀ (results : List StepResult) (r : StepResult) (tail : List StepResult),
    results.filter (fun x => x.name == resultName) = r :: tail →
    resultCheck r = ResultCheck.pass →
    checkResultsLoop resultName stepName results = ([], true) := by
  intro results
  induction results with
  | nil => intro r tail hf _; cases hf
  | cons a rs ih =>
    intro r tail hf hpass
    rw [List.filter_cons] at hf
    by_cases hname : (a.name == resultName) = true
    · rw [if_pos hname] at hf
      injection hf with h1 h2
      subst h1
      simp only [checkResultsLoop]
      rw [if_neg (by simp [bne_false_of_beq hname])]
      rw [hpass]
    · rw [if_neg hname] at hf
      simp only [checkResultsLoop]
      rw [if_pos (bne_true_of_not_beq hname)]
      exact ih r tail hf hpass

/-- When the first matching result is empty or of unsupported type, the loop
emits at least one message. -/
theorem checkResultsLoop_first_not_pass (resultName stepName : String) :
    ∀ (results : List StepResult) (r : StepResult) (tail : List StepResult),
    results.filter (fun x => x.name == resultName) = r :: tail →
    resultCheck r ≠ ResultCheck.pass →
    (checkResultsLoop resultName stepName results).1 ≠ [] := by
  intro results
  induction results with
  | nil => intro r tail hf _; cases hf
  | cons a rs ih =>
    intro r tail hf hnp
    rw [List.filter_cons] at hf
    by_cases hname : (a.name == resultName) = true
    · rw [if_pos hname] at hf
      injection hf with h1 h2
      subst h1
      simp only [checkResultsLoop]
      rw [if_neg (by simp [bne_false_of_beq hname])]
      cases hrc : resultCheck a with
      | pass => exact absurd hrc hnp
      | empty => simp
      | unsupported => simp
    · rw [if_neg hname] at hf
      simp only [checkResultsLoop]
      rw [if_pos (bne_true_of_not_beq hname)]
      exact ih r tail hf hnp

/-- The scan of `checkStepResults` emits no message exactly when the first
result of the asked-for name inside steps of the asked-for name exists and is
non-empty for its declared type. -/
theorem checkStepResults_eq_nil_iff (stepName resultName : String) :
    ∀ steps : List StepState,
    checkStepResults steps stepName resultName = [] ↔
    (∃ r tail, matchingResults steps stepName resultName = r :: tail ∧
      resultCheck r = ResultCheck.pass) := by
  intro steps
  induction steps with
  | nil =>
    simp [checkStepResults, matchingResults]
  | cons s ss ih =>
    by_cases hs : (s.name == stepName) = true
    · have hm : matchingResults (s :: ss) stepName resultName =
          s.results.filter (fun r => r.name == resultName) ++
            matchingResults ss stepName resultName := by
        simp [matchingResults, List.filter_cons, hs]
      simp only [checkStepResults]
      rw [if_neg (by simp [bne_false_of_beq hs])]
      rw [hm]
      cases hfs : s.results.filter (fun r => r.name == resultName) with
      | nil =>
        have hp := checkResultsLoop_no_match resultName s.name s.results hfs
        rw [hp]
        simpa using ih
      | cons r tail =>
        by_cases hrc : resultCheck r = ResultCheck.pass
        · have hp := checkResultsLoop_first_pass resultName s.name s.results r tail hfs hrc
          rw [hp]
          simp only [List.cons_append]
          constructor
          · intro _
            exact ⟨r, tail ++ matchingResults ss stepName resultName, rfl, hrc⟩
          · intro _
            rfl
        · have hp1 := checkResultsLoop_first_not_pass resultName s.name s.results r tail hfs hrc
          constructor
          · intro hL
            exfalso
            by_cases hp2 : (checkResultsLoop resultName s.name s.results).2 = true
            · rw [if_pos hp2] at hL
              exact hp1 hL
            · rw [if_neg hp2] at hL
              exact hp1 (List.append_eq_nil.mp hL).1
          · rintro ⟨r1, tail1, heq, hrc1⟩
            rw [List.cons_append] at heq
            injection heq with he1 he2
            exact absurd (he1 ▸ hrc1) hrc
    · have hm : matchingResults (s :: ss) stepName resultName =
          matchingResults ss stepName resultName := by
        simp [matchingResults, List.filter_cons, hs]
      simp only [checkStepResults]
      rw [if_pos (bne_true_of_not_beq hs)]
      rw [hm]
      exact ih

/-- C6 (amended): in direct mode, the step-result-non-empty assertion applied
to a TaskRun passes exactly when the first result of the given name inside
steps of the given name has a value that is non-empty under its declared
type's emptiness rule (an unrecognized result type is a failure, not a
pass), and applied to a PipelineRun it always fails with the
`PipelineRun not supported` error — but in managed (V2) mode the check is
skipped wholesale and always passes. -/
theorem assertStepResultNotEmpty_spec (steps : List StepState) (stepName resultName : String) :
    (AssertStepResultNotEmpty false "taskrun" steps stepName resultName = [] ↔
      ∃ r tail, matchingResults steps stepName resultName = r :: tail ∧
        resultCheck r = ResultCheck.pass) ∧
    (∀ (kind : String) (steps2 : List StepState) (sN rN : String),
      toLowerAscii kind = "pipelinerun" →
      ∃ msgs, AssertStepResultNotEmpty false kind steps2 sN rN =
        pipelineUnsupportedMsg :: msgs) := by
  constructor
  · simp only [AssertStepResultNotEmpty]
    rw [if_neg (by simp), if_pos (by decide)]
    exact checkStepResults_eq_nil_iff stepName resultName steps
  · intro kind steps2 sN rN hk
    simp only [AssertStepResultNotEmpty]
    rw [if_neg (by simp), if_neg (by simp [hk]), if_pos (by simp [hk])]
    exact ⟨_, rfl⟩

/-- C6 counterexample: in managed (V2) mode the assertion is skipped
entirely, so invoking the check on a PipelineRun yields no error at all —
refuting the claim that the check on a PipelineRun always fails with an
unsupported error and never silently passes. -/
theorem assertStepResult_counterexample :
    AssertStepResultNotEmpty true "pipelinerun" [] "build" "digest" = [] := by decide

/-- Witness for C6: the amended theorem applied at the fixtures of the spec
(step `build`, result `digest`). -/
theorem assertStepResultNotEmpty_spec_witness :
    AssertStepResultNotEmpty false "taskrun"
      [⟨"build", [⟨"digest", "string", ⟨"sha256:abc", [], []⟩⟩]⟩] "build" "digest" = [] ∧
    (∃ msgs, AssertStepResultNotEmpty false "pipelinerun" [] "build" "digest" =
      pipelineUnsupportedMsg :: msgs) := by
  constructor
  · exact (assertStepResultNotEmpty_spec
      [⟨"build", [⟨"digest", "string", ⟨"sha256:abc", [], []⟩⟩]⟩] "build" "digest").1.mpr
      ⟨⟨"digest", "string", ⟨"sha256:abc", [], []⟩⟩, [], by decide, by decide⟩
  · exact (assertStepResultNotEmpty_spec [] "x" "y").2 "pipelinerun" [] "build" "digest"
      (by decide)

end CatalogInfra
